import Mathlib

/-!
Shallow embedding of V3Undriven.cpp (Verilator's unused/undriven signal
check pass): the `UndrivenVarEntry` per-variable usage record, the
`UndrivenVisitor` tree traversal, and the report step, together with
theorems checking the specification's claims against this code.
-/

set_option maxRecDepth 8000

/-- Flag layout inside `m_flags`, from the C++ enum
`{ FLAG_USED = 0, FLAG_DRIVEN = 1, FLAGS_PER_BIT = 2 }`. -/
def FLAG_USED : Nat := 0

/-- Second flag of each bit pair. -/
def FLAG_DRIVEN : Nat := 1

/-- Number of flags stored per bit of the variable. -/
def FLAGS_PER_BIT : Nat := 2

/-- The attributes of an `AstVar` signal declaration that this pass reads:
width, declared lsb offset (`basicp()->lsb()`), endianness
(`basicp()->littleEndian()`), the classification predicates and the
display name.  `vid` is the declaration's identity (the C++ keys records
by the `AstVar*` pointer). -/
structure VarDecl where
  vid : Nat
  name : String
  width : Nat
  lsb : Int
  littleEndian : Bool
  isParam : Bool
  isGenVar : Bool
  isInput : Bool
  isOutput : Bool
  isSigPublic : Bool
  isSigUserRWPublic : Bool
  isSigUserRdPublic : Bool
deriving DecidableEq, Repr

/-- Diagnostic category of a `v3warn` call in this pass. -/
inductive DiagCat where
  | UNUSED
  | UNDRIVEN
deriving DecidableEq, Repr

/-- One emitted diagnostic: the warning category and the full streamed
message text. -/
structure Diag where
  cat : DiagCat
  msg : String
deriving DecidableEq, Repr

/-- The per-variable usage record `UndrivenVarEntry`: whole-vector flags
plus the interleaved per-bit flag vector `m_flags`
(length `width * FLAGS_PER_BIT`). -/
structure UndrivenVarEntry where
  varp : VarDecl
  m_usedWhole : Bool
  m_drivenWhole : Bool
  m_flags : List Bool
deriving DecidableEq, Repr

namespace UndrivenVarEntry

/-- Constructor of `UndrivenVarEntry`: all flags start false and the flag
vector is sized to `width*FLAGS_PER_BIT`. -/
def mkEntry (v : VarDecl) : UndrivenVarEntry :=
  { varp := v
    m_usedWhole := false
    m_drivenWhole := false
    m_flags := List.replicate (v.width * FLAGS_PER_BIT) false }

/-- The bounds check `bitNumOk`: `bit*FLAGS_PER_BIT < m_flags.size()`.
The C++ takes `int`; every call site passes a value derived from an
unsigned constant, so the embedding uses `Nat`. -/
def bitNumOk (e : UndrivenVarEntry) (bit : Nat) : Bool :=
  bit * FLAGS_PER_BIT < e.m_flags.length

/-- The accessor `usedFlag(bit)` reading `m_flags[bit*FLAGS_PER_BIT+FLAG_USED]`. -/
def usedFlag (e : UndrivenVarEntry) (bit : Nat) : Bool :=
  e.m_flags.getD (bit * FLAGS_PER_BIT + FLAG_USED) false

/-- The accessor `drivenFlag(bit)` reading `m_flags[bit*FLAGS_PER_BIT+FLAG_DRIVEN]`. -/
def drivenFlag (e : UndrivenVarEntry) (bit : Nat) : Bool :=
  e.m_flags.getD (bit * FLAGS_PER_BIT + FLAG_DRIVEN) false

/-- The method `usedWhole()` setting `m_usedWhole = true`. -/
def usedWhole (e : UndrivenVarEntry) : UndrivenVarEntry :=
  { e with m_usedWhole := true }

/-- The method `drivenWhole()` setting `m_drivenWhole = true`. -/
def drivenWhole (e : UndrivenVarEntry) : UndrivenVarEntry :=
  { e with m_drivenWhole := true }

/-- The method `usedBit(bit, width)`: for each `i < width`, if
`bitNumOk(bit+i)` then set `m_flags[(bit+i)*FLAGS_PER_BIT+FLAG_USED]`. -/
def usedBit (e : UndrivenVarEntry) (bit width : Nat) : UndrivenVarEntry :=
  (List.range width).foldl
    (fun acc i =>
      if acc.bitNumOk (bit + i) then
        { acc with
          m_flags := acc.m_flags.set ((bit + i) * FLAGS_PER_BIT + FLAG_USED) true }
      else acc)
    e

/-- The method `drivenBit(bit, width)`: for each `i < width`, if
`bitNumOk(bit+i)` then set `m_flags[(bit+i)*FLAGS_PER_BIT+FLAG_DRIVEN]`. -/
def drivenBit (e : UndrivenVarEntry) (bit width : Nat) : UndrivenVarEntry :=
  (List.range width).foldl
    (fun acc i =>
      if acc.bitNumOk (bit + i) then
        { acc with
          m_flags := acc.m_flags.set ((bit + i) * FLAGS_PER_BIT + FLAG_DRIVEN) true }
      else acc)
    e

/-- The helper `cvtToStr` on the integers this pass renders. -/
def cvtToStr (i : Int) : String := toString i

/-- One iteration of the `bitNames` scan loop, on the state
`(bits, prev, msb) = (st.1, st.2.1, st.2.2)` at loop counter `bit`
(which reaches `-1` on the final iteration).  The run text appended on a
flush is `lsbRun+off`, or the two endpoints joined by ":" in the order
selected by the declaration's endianness, where `lsbRun = bit + 1` and
`off` is the declared lsb offset. -/
def bnStep (e : UndrivenVarEntry) (index : Nat)
    (st : String × Bool × Int) (bit : Int) : String × Bool × Int :=
  if 0 ≤ bit ∧ e.m_flags.getD (bit.toNat * FLAGS_PER_BIT + index) false = false then
    if !st.2.1 then (st.1, true, bit) else st
  else if st.2.1 then
    ((if st.1 ≠ "" then st.1 ++ "," else st.1) ++
      (if bit + 1 = st.2.2 then cvtToStr (bit + 1 + e.varp.lsb)
       else if e.varp.littleEndian then
         cvtToStr (bit + 1 + e.varp.lsb) ++ ":" ++ cvtToStr (st.2.2 + e.varp.lsb)
       else
         cvtToStr (st.2.2 + e.varp.lsb) ++ ":" ++ cvtToStr (bit + 1 + e.varp.lsb)),
     false, st.2.2)
  else st

/-- The method `bitNames(index)`: scan `bit` from `size/FLAGS_PER_BIT - 1`
down to `-1`, collecting maximal runs of bits whose selected flag is
false, and render them between brackets. -/
def bitNames (e : UndrivenVarEntry) (index : Nat) : String :=
  let w := e.m_flags.length / FLAGS_PER_BIT
  let iter : List Int := (List.range (w + 1)).map fun (k : Nat) => (w : Int) - 1 - (k : Int)
  let st := iter.foldl (bnStep e index) ("", false, 0)
  "[" ++ st.1 ++ "]"

/-- The method `reportViolations()`: combine per-bit flags into the
overall verdict and emit the warnings, in the order the C++ emits them. -/
def reportViolations (e : UndrivenVarEntry) : List Diag :=
  if !e.varp.isParam && !e.varp.isGenVar then
    let w := e.m_flags.length / FLAGS_PER_BIT
    let allU := (List.range w).all fun bit => e.usedFlag bit
    let allD := (List.range w).all fun bit => e.drivenFlag bit
    let anyU := e.m_usedWhole || (List.range w).any fun bit => e.usedFlag bit
    let anyD := e.m_drivenWhole || (List.range w).any fun bit => e.drivenFlag bit
    let usedWholeF := e.m_usedWhole || allU
    let drivenWholeF := e.m_drivenWhole || allD
    if usedWholeF && drivenWholeF then []
    else if !anyU && !anyD then
      [⟨DiagCat.UNDRIVEN, "Signal is not driven, nor used: " ++ e.varp.name⟩]
    else
      (if !usedWholeF && !anyU then
        [⟨DiagCat.UNUSED, "Signal is not used: " ++ e.varp.name⟩]
       else if !usedWholeF then
        [⟨DiagCat.UNUSED,
          "Bits of signal are not used: " ++ e.varp.name ++ e.bitNames FLAG_USED⟩]
       else []) ++
      (if !drivenWholeF && !anyD then
        [⟨DiagCat.UNDRIVEN, "Signal is not driven: " ++ e.varp.name⟩]
       else if !drivenWholeF then
        [⟨DiagCat.UNDRIVEN,
          "Bits of signal are not driven: " ++ e.varp.name ++ e.bitNames FLAG_DRIVEN⟩]
       else [])
  else []

/-- Common shape of the two bit-marking loops `usedBit`/`drivenBit`,
parameterized by the flag offset inside each bit's pair. -/
def markBitFold (koff : Nat) (e : UndrivenVarEntry) (bit width : Nat) : UndrivenVarEntry :=
  (List.range width).foldl
    (fun acc i =>
      if acc.bitNumOk (bit + i) then
        { acc with m_flags := acc.m_flags.set ((bit + i) * FLAGS_PER_BIT + koff) true }
      else acc)
    e

end UndrivenVarEntry

open UndrivenVarEntry

/-- The fragment of the `AstNode` tree that this pass dispatches on:
variable declarations, array selects, bit-range selects (with their
`fromp`, `lsbp` subtrees, the node's `width()`, and any further
children), variable references with their lvalue context, constants
(with their four-state property and value), the five coverage/trace
instrumentation node kinds, and a default node kind holding children. -/
inductive Ast where
  | var (v : VarDecl) (children : List Ast)
  | arraySel (children : List Ast)
  | sel (fromE : Ast) (lsbE : Ast) (width : Nat) (extra : List Ast)
  | varRef (v : VarDecl) (lvalue : Bool)
  | constE (fourState : Bool) (value : Nat)
  | coverDecl (children : List Ast)
  | coverInc (children : List Ast)
  | coverToggle (children : List Ast)
  | traceDecl (children : List Ast)
  | traceInc (children : List Ast)
  | other (children : List Ast)

/-- The visitor's collection of usage records, in creation order
(`m_entryps`); the `user1p` association from a variable to its record is
the `vid` lookup into this list. -/
abbrev Table := List UndrivenVarEntry

/-- Lookup side of `getEntryp`: whether a record for this variable
identity already exists. -/
def containsVid (tbl : Table) (vid : Nat) : Bool :=
  tbl.any fun e => e.varp.vid == vid

/-- Creation side of `getEntryp`: add a fresh record on first reference. -/
def ensureEntry (tbl : Table) (v : VarDecl) : Table :=
  if containsVid tbl v.vid then tbl else tbl ++ [mkEntry v]

/-- Apply a usage-record mutation to the record of variable `v`,
creating the record first when absent (`getEntryp` then the method call). -/
def updateVar (tbl : Table) (v : VarDecl)
    (f : UndrivenVarEntry → UndrivenVarEntry) : Table :=
  (ensureEntry tbl v).map fun e => if e.varp.vid == v.vid then f e else e

/-- The guard of the precise branch in `visit(AstSel*)`:
`fromp()->castVarRef() && lsbp()->castConst() && !constp->num().isFourState()`. -/
def preciseSel : Ast → Ast → Bool
  | Ast.varRef _ _, Ast.constE fourState _ => !fourState
  | _, _ => false

/-- Variable extracted by `fromp()->castVarRef()` (only consulted when
`preciseSel` holds). -/
def selVarOf : Ast → VarDecl
  | Ast.varRef v _ => v
  | _ => { vid := 0, name := "", width := 0, lsb := 0, littleEndian := false,
           isParam := false, isGenVar := false, isInput := false, isOutput := false,
           isSigPublic := false, isSigUserRWPublic := false,
           isSigUserRdPublic := false }

/-- Lvalue context of the select's base reference (only consulted when
`preciseSel` holds). -/
def selLvOf : Ast → Bool
  | Ast.varRef _ lv => lv
  | _ => false

/-- Value extracted by `constp->toUInt()` (only consulted when
`preciseSel` holds). -/
def selConstOf : Ast → Nat
  | Ast.constE _ n => n
  | _ => 0

mutual

/-- The visitor dispatch of `UndrivenVisitor` on one node, translated
case by case from the C++ `visit` overloads, threading the record table. -/
def visitN (tbl : Table) : Ast → Table
  | Ast.var v children =>
    let tbl1 := ensureEntry tbl v
    let tbl2 :=
      if v.isInput || v.isSigPublic || v.isSigUserRWPublic then
        updateVar tbl1 v drivenWhole
      else tbl1
    let tbl3 :=
      if v.isOutput || v.isSigPublic || v.isSigUserRWPublic || v.isSigUserRdPublic then
        updateVar tbl2 v usedWhole
      else tbl2
    visitL tbl3 children
  | Ast.arraySel children => visitL tbl children
  | Ast.sel fromE lsbE width extra =>
    if preciseSel fromE lsbE then
      let v := selVarOf fromE
      let lsb := selConstOf lsbE
      if selLvOf fromE then updateVar tbl v (fun e => e.drivenBit lsb width)
      else updateVar tbl v (fun e => e.usedBit lsb width)
    else
      visitL (visitN (visitN tbl fromE) lsbE) extra
  | Ast.varRef v lvalue =>
    if lvalue then updateVar tbl v drivenWhole else updateVar tbl v usedWhole
  | Ast.constE _ _ => tbl
  | Ast.coverDecl _ => tbl
  | Ast.coverInc _ => tbl
  | Ast.coverToggle _ => tbl
  | Ast.traceDecl _ => tbl
  | Ast.traceInc _ => tbl
  | Ast.other children => visitL tbl children

/-- Iteration over a node's children (`iterateChildren`). -/
def visitL (tbl : Table) : List Ast → Table
  | [] => tbl
  | n :: rest => visitL (visitN tbl n) rest

end

/-- The teardown loop of `~UndrivenVisitor`: call `reportViolations` on
every record in creation order and concatenate the emitted diagnostics. -/
def reportAll (tbl : Table) : List Diag :=
  tbl.foldl (fun acc e => acc ++ reportViolations e) []

/-- The entry point `V3Undriven::undrivenAll`: traverse from the root
with a fresh table, then report. -/
def undrivenAll (root : Ast) : List Diag :=
  reportAll (visitN [] root)

/-- The constructor's `AstNode::user1ClearTree()`: whatever annotation
state a previous pass left behind is discarded. -/
def user1ClearTree (_stale : Table) : Table := []

/-- The pass as started from an arbitrary stale annotation state: the
constructor clears the annotations before traversing. -/
def undrivenAllFrom (stale : Table) (root : Ast) : List Diag :=
  reportAll (visitN (user1ClearTree stale) root)

/-! ## Concrete fixtures used by the per-claim computations -/

/-- Plain 8-bit ascending-numbered signal with lsb offset 0, used by the
bit-select range scenarios. -/
def xVar : VarDecl :=
  { vid := 3, name := "x", width := 8, lsb := 0, littleEndian := true,
    isParam := false, isGenVar := false, isInput := false, isOutput := false,
    isSigPublic := false, isSigUserRWPublic := false, isSigUserRdPublic := false }

/-- Tree for the partially-driven scenario: declaration of `x`, a
constant bit-select drive of local bits 0..3, and a whole-signal read. -/
def partialDriveTree : Ast := Ast.other
  [Ast.var xVar [],
   Ast.sel (Ast.varRef xVar true) (Ast.constE false 0) 4 [],
   Ast.varRef xVar false]

/-- Usage record of a 10-bit descending-numbered signal whose used flags
are true exactly on local bits 0..6 (so bits 7, 8, 9 are unused) and
whose driven flags are all true. -/
def tenBitDesc : UndrivenVarEntry :=
  { varp := { vid := 4, name := "y", width := 10, lsb := 0, littleEndian := false,
              isParam := false, isGenVar := false, isInput := false, isOutput := false,
              isSigPublic := false, isSigUserRWPublic := false, isSigUserRdPublic := false }
    m_usedWhole := false
    m_drivenWhole := false
    m_flags := (List.range (10 * FLAGS_PER_BIT)).map fun i =>
      if i % FLAGS_PER_BIT == FLAG_USED then decide (i / FLAGS_PER_BIT < 7) else true }

/-- The ascending-numbered variant of `tenBitDesc` with the same flags. -/
def tenBitAsc : UndrivenVarEntry :=
  { tenBitDesc with varp := { tenBitDesc.varp with littleEndian := true } }

/-- Plain signal declared and then referenced only inside coverage and
trace instrumentation nodes. -/
def instrOnlyTree : Ast := Ast.other
  [Ast.var xVar [],
   Ast.coverInc [Ast.varRef xVar false],
   Ast.traceInc [Ast.varRef xVar false]]

/-- One-bit signal driven through a constant bit-select at index 0 and
used through a whole-signal reference. -/
def oneBitVar : VarDecl := { xVar with vid := 6, name := "z", width := 1 }

/-- Tree for the one-bit lattice-join scenario. -/
def oneBitTree : Ast := Ast.other
  [Ast.var oneBitVar [],
   Ast.sel (Ast.varRef oneBitVar true) (Ast.constE false 0) 1 [],
   Ast.varRef oneBitVar false]

/-! ## Helper lemmas about the usage record -/

namespace UndrivenVarEntry

theorem usedFlag_of_all_false {e : UndrivenVarEntry}
    (h : ∀ b ∈ e.m_flags, b = false) (bit : Nat) : e.usedFlag bit = false := by
  unfold usedFlag
  rcases Nat.lt_or_ge (bit * FLAGS_PER_BIT + FLAG_USED) e.m_flags.length with hlt | hge
  · rw [List.getD_eq_getElem _ _ hlt]
    exact h _ (List.getElem_mem hlt)
  · exact List.getD_eq_default _ _ hge

theorem drivenFlag_of_all_false {e : UndrivenVarEntry}
    (h : ∀ b ∈ e.m_flags, b = false) (bit : Nat) : e.drivenFlag bit = false := by
  unfold drivenFlag
  rcases Nat.lt_or_ge (bit * FLAGS_PER_BIT + FLAG_DRIVEN) e.m_flags.length with hlt | hge
  · rw [List.getD_eq_getElem _ _ hlt]
    exact h _ (List.getElem_mem hlt)
  · exact List.getD_eq_default _ _ hge

/-- A record carrying no used and no driven information, for a real
signal of positive width, reports exactly the combined
"not driven, nor used" UNDRIVEN diagnostic. -/
theorem reportViolations_fresh (e : UndrivenVarEntry)
    (hu : e.m_usedWhole = false) (hd : e.m_drivenWhole = false)
    (hf : ∀ b ∈ e.m_flags, b = false) (hw : 2 ≤ e.m_flags.length)
    (hp : e.varp.isParam = false) (hg : e.varp.isGenVar = false) :
    reportViolations e =
      [⟨DiagCat.UNDRIVEN, "Signal is not driven, nor used: " ++ e.varp.name⟩] := by
  have hu' := usedFlag_of_all_false hf
  have hd' := drivenFlag_of_all_false hf
  have hwpos : 0 < e.m_flags.length / FLAGS_PER_BIT := by
    show 0 < e.m_flags.length / 2
    omega
  have hall : ((List.range (e.m_flags.length / FLAGS_PER_BIT)).all
      fun bit => e.usedFlag bit) = false := by
    rw [List.all_eq_false]
    exact ⟨0, by simpa using hwpos, by simp [hu' 0]⟩
  have halld : ((List.range (e.m_flags.length / FLAGS_PER_BIT)).all
      fun bit => e.drivenFlag bit) = false := by
    rw [List.all_eq_false]
    exact ⟨0, by simpa using hwpos, by simp [hd' 0]⟩
  have hanyu : ((List.range (e.m_flags.length / FLAGS_PER_BIT)).any
      fun bit => e.usedFlag bit) = false := by
    rw [List.any_eq_false]
    intro x _
    simp [hu' x]
  have hanyd : ((List.range (e.m_flags.length / FLAGS_PER_BIT)).any
      fun bit => e.drivenFlag bit) = false := by
    rw [List.any_eq_false]
    intro x _
    simp [hd' x]
  simp [reportViolations, hp, hg, hu, hd, hall, halld, hanyu, hanyd]

/-- The fresh record of a real signal of positive width reports exactly
the combined diagnostic. -/
theorem reportViolations_mkEntry (v : VarDecl)
    (hp : v.isParam = false) (hg : v.isGenVar = false) (hw : 1 ≤ v.width) :
    reportViolations (mkEntry v) =
      [⟨DiagCat.UNDRIVEN, "Signal is not driven, nor used: " ++ v.name⟩] := by
  refine reportViolations_fresh _ rfl rfl ?_ ?_ hp hg
  · intro b hb
    exact (List.eq_of_mem_replicate hb)
  · show 2 ≤ (List.replicate (v.width * FLAGS_PER_BIT) false).length
    rw [List.length_replicate]
    show 2 ≤ v.width * 2
    omega

theorem getD_set_ne (l : List Bool) (m idx : Nat) (a d : Bool) (h : m ≠ idx) :
    (l.set m a).getD idx d = l.getD idx d := by
  simp [List.getD_eq_getElem?_getD, List.getElem?_set_ne h]

theorem getD_set_self (l : List Bool) (m : Nat) (a d : Bool) (h : m < l.length) :
    (l.set m a).getD m d = a := by
  simp [List.getD_eq_getElem?_getD, List.getElem?_set, h]

theorem usedBit_eq_markBitFold (e : UndrivenVarEntry) (bit width : Nat) :
    e.usedBit bit width = markBitFold FLAG_USED e bit width := rfl

theorem drivenBit_eq_markBitFold (e : UndrivenVarEntry) (bit width : Nat) :
    e.drivenBit bit width = markBitFold FLAG_DRIVEN e bit width := rfl

theorem markBitFold_succ (k : Nat) (e : UndrivenVarEntry) (bit n : Nat) :
    markBitFold k e bit (n + 1) =
      (if (markBitFold k e bit n).bitNumOk (bit + n) then
        { markBitFold k e bit n with
          m_flags := (markBitFold k e bit n).m_flags.set
            ((bit + n) * FLAGS_PER_BIT + k) true }
      else markBitFold k e bit n) := by
  unfold markBitFold
  rw [List.range_succ, List.foldl_append]
  rfl

theorem markBitFold_varp (k : Nat) (e : UndrivenVarEntry) (bit : Nat) :
    ∀ n, (markBitFold k e bit n).varp = e.varp := by
  intro n
  induction n with
  | zero => rfl
  | succ n ih =>
    rw [markBitFold_succ]
    split <;> simpa using ih

theorem markBitFold_usedWhole (k : Nat) (e : UndrivenVarEntry) (bit : Nat) :
    ∀ n, (markBitFold k e bit n).m_usedWhole = e.m_usedWhole := by
  intro n
  induction n with
  | zero => rfl
  | succ n ih =>
    rw [markBitFold_succ]
    split <;> simpa using ih

theorem markBitFold_drivenWhole (k : Nat) (e : UndrivenVarEntry) (bit : Nat) :
    ∀ n, (markBitFold k e bit n).m_drivenWhole = e.m_drivenWhole := by
  intro n
  induction n with
  | zero => rfl
  | succ n ih =>
    rw [markBitFold_succ]
    split <;> simpa using ih

theorem markBitFold_length (k : Nat) (e : UndrivenVarEntry) (bit : Nat) :
    ∀ n, (markBitFold k e bit n).m_flags.length = e.m_flags.length := by
  intro n
  induction n with
  | zero => rfl
  | succ n ih =>
    rw [markBitFold_succ]
    split <;> simp [List.length_set, ih]

theorem markBitFold_getD_frame (k : Nat) (e : UndrivenVarEntry) (bit : Nat) :
    ∀ n idx, (∀ i, i < n → idx ≠ (bit + i) * FLAGS_PER_BIT + k) →
    (markBitFold k e bit n).m_flags.getD idx false = e.m_flags.getD idx false := by
  intro n
  induction n with
  | zero => intro idx _; rfl
  | succ n ih =>
    intro idx h
    rw [markBitFold_succ]
    split
    · show ((markBitFold k e bit n).m_flags.set _ true).getD idx false = _
      rw [getD_set_ne _ _ _ _ _ (fun hc => (h n (by omega)) hc.symm)]
      exact ih idx (fun i hi => h i (by omega))
    · exact ih idx (fun i hi => h i (by omega))

theorem markBitFold_getD_hit (k : Nat) (e : UndrivenVarEntry) (bit : Nat) :
    ∀ n i, i < n → (bit + i) * FLAGS_PER_BIT + k < e.m_flags.length →
    (markBitFold k e bit n).m_flags.getD ((bit + i) * FLAGS_PER_BIT + k) false = true := by
  intro n
  induction n with
  | zero => intro i hi; omega
  | succ n ih =>
    intro i hi hlen
    rw [markBitFold_succ]
    rcases Nat.lt_or_ge i n with hin | hin
    · split
      · show ((markBitFold k e bit n).m_flags.set _ true).getD _ false = true
        rcases Nat.decEq ((bit + n) * FLAGS_PER_BIT + k) ((bit + i) * FLAGS_PER_BIT + k) with hne | heq
        · rw [getD_set_ne _ _ _ _ _ hne]
          exact ih i hin hlen
        · rw [heq, getD_set_self]
          rw [markBitFold_length]
          omega
      · exact ih i hin hlen
    · have hieq : i = n := by omega
      subst hieq
      have hok : (markBitFold k e bit i).bitNumOk (bit + i) = true := by
        show decide _ = true
        rw [decide_eq_true_iff, markBitFold_length]
        omega
      rw [if_pos hok]
      show ((markBitFold k e bit i).m_flags.set _ true).getD _ false = true
      rw [getD_set_self]
      rw [markBitFold_length]
      omega

theorem markBitFold_flag_hit_iff (k : Nat) (e : UndrivenVarEntry) (W bit width : Nat)
    (hk : k < FLAGS_PER_BIT) (hW : e.m_flags.length = W * FLAGS_PER_BIT)
    (i : Nat) (hi : i < width) :
    (markBitFold k e bit width).m_flags.getD ((bit + i) * FLAGS_PER_BIT + k) false = true
      ↔ bit + i < W := by
  have hF2 : FLAGS_PER_BIT = 2 := rfl
  constructor
  · intro h
    by_contra hge
    have hlen : e.m_flags.length ≤ (bit + i) * FLAGS_PER_BIT + k := by
      rw [hW, hF2]
      rw [hF2] at hk
      omega
    rw [← markBitFold_length k e bit width] at hlen
    rw [List.getD_eq_default _ _ hlen] at h
    exact absurd h (by simp)
  · intro hlt
    refine markBitFold_getD_hit k e bit width i hi ?_
    rw [hW, hF2]
    rw [hF2] at hk
    omega

/-! ### String facts used by the range-text lemmas -/

theorem string_eq_empty_of_length_zero (s : String) (h : s.length = 0) : s = "" := by
  apply String.ext
  show s.data = ("" : String).data
  have hd : s.data.length = 0 := h
  rw [List.length_eq_zero] at hd
  rw [hd]

theorem natRepr_length_pos (n : Nat) : 0 < (Nat.repr n).length := by
  show 0 < ((Nat.toDigits 10 n).asString).length
  rw [List.length_asString]
  show 0 < (Nat.toDigitsCore 10 (n + 1) n []).length
  simp only [Nat.toDigitsCore]
  split
  · simp
  · rw [Nat.toDigitsCore_lens_eq]
    omega

theorem cvtToStr_length_pos (i : Int) : 0 < (cvtToStr i).length := by
  show 0 < (Int.repr i).length
  cases i with
  | ofNat m => exact natRepr_length_pos m
  | negSucc m =>
    show 0 < ("-" ++ Nat.repr (m + 1)).length
    rw [String.length_append]
    have h1 : ("-" : String).length = 1 := rfl
    have h2 := natRepr_length_pos (m + 1)
    omega

theorem append_ne_empty_of_right (s t : String) (ht : 0 < t.length) : s ++ t ≠ "" := by
  intro h
  have hl := congrArg String.length h
  rw [String.length_append] at hl
  have hz : ("" : String).length = 0 := rfl
  omega

theorem string_append_left_cancel (p x y : String) (h : p ++ x = p ++ y) : x = y := by
  have hd := congrArg String.data h
  rw [String.data_append, String.data_append] at hd
  exact String.ext (List.append_cancel_left hd)

theorem head_of_append_lit (lit s : String) (c : Char)
    (h : lit.data.head? = some c) : (lit ++ s).data.head? = some c := by
  rw [String.data_append, List.head?_append_of_ne_nil]
  · exact h
  · intro hnil
    rw [hnil] at h
    exact absurd h (by simp)

theorem append_ne_append_of_head (a b x y : String) (c1 c2 : Char) (hc : c1 ≠ c2)
    (ha : a.data.head? = some c1) (hb : b.data.head? = some c2) : a ++ x ≠ b ++ y := by
  intro h
  have hd := congrArg (fun s => s.data.head?) h
  simp only at hd
  rw [head_of_append_lit a x c1 ha, head_of_append_lit b y c2 hb] at hd
  exact hc (Option.some.inj hd)

/-! ### The rendered range text of a partial diagnostic is never empty -/

/-- Invariant of the `bitNames` scan state: either text has already been
emitted or a run is open. -/
def bnGood (st : String × Bool × Int) : Prop := st.1 ≠ "" ∨ st.2.1 = true

theorem bnStep_flush_ne (e : UndrivenVarEntry) (index : Nat)
    (st : String × Bool × Int) (bit : Int) (hprev : st.2.1 = true)
    (hcond : ¬(0 ≤ bit ∧ e.m_flags.getD (bit.toNat * FLAGS_PER_BIT + index) false = false)) :
    (bnStep e index st bit).1 ≠ "" := by
  unfold bnStep
  rw [if_neg hcond, if_pos hprev]
  show (_ ++ _) ≠ ""
  apply append_ne_empty_of_right
  split
  · exact cvtToStr_length_pos _
  · split
    · rw [String.length_append, String.length_append]
      have := cvtToStr_length_pos (bit + 1 + e.varp.lsb)
      omega
    · rw [String.length_append, String.length_append]
      have := cvtToStr_length_pos (bit + 1 + e.varp.lsb)
      omega

theorem bnStep_good (e : UndrivenVarEntry) (index : Nat)
    (st : String × Bool × Int) (bit : Int) (h : bnGood st) :
    bnGood (bnStep e index st bit) := by
  by_cases h1 : 0 ≤ bit ∧ e.m_flags.getD (bit.toNat * FLAGS_PER_BIT + index) false = false
  · unfold bnStep
    rw [if_pos h1]
    by_cases h2 : st.2.1 = true
    · rw [h2]
      exact Or.inr h2
    · have : (!st.2.1) = true := by
        cases hb : st.2.1
        · rfl
        · exact absurd hb h2
      rw [this]
      exact Or.inr rfl
  · by_cases h2 : st.2.1 = true
    · exact Or.inl (bnStep_flush_ne e index st bit h2 h1)
    · unfold bnStep
      rw [if_neg h1, if_neg h2]
      exact h

theorem bnStep_trigger (e : UndrivenVarEntry) (index : Nat)
    (st : String × Bool × Int) (bit : Int) (hb : 0 ≤ bit)
    (hf : e.m_flags.getD (bit.toNat * FLAGS_PER_BIT + index) false = false) :
    bnGood (bnStep e index st bit) := by
  unfold bnStep
  rw [if_pos ⟨hb, hf⟩]
  by_cases h2 : st.2.1 = true
  · rw [h2]
    exact Or.inr h2
  · have : (!st.2.1) = true := by
      cases hbv : st.2.1
      · rfl
      · exact absurd hbv h2
    rw [this]
    exact Or.inr rfl

theorem bnStep_final_ne (e : UndrivenVarEntry) (index : Nat)
    (st : String × Bool × Int) (h : bnGood st) :
    (bnStep e index st (-1)).1 ≠ "" := by
  have hcond : ¬((0 : Int) ≤ -1 ∧
      e.m_flags.getD ((-1 : Int).toNat * FLAGS_PER_BIT + index) false = false) := by
    intro hc
    exact absurd hc.1 (by decide)
  by_cases h2 : st.2.1 = true
  · exact bnStep_flush_ne e index st (-1) h2 hcond
  · unfold bnStep
    rw [if_neg hcond, if_neg h2]
    rcases h with hne | hprev
    · exact hne
    · exact absurd hprev h2

theorem foldl_bnStep_good (e : UndrivenVarEntry) (index : Nat) :
    ∀ (l : List Int) (st : String × Bool × Int), bnGood st →
      bnGood (l.foldl (bnStep e index) st) := by
  intro l
  induction l with
  | nil => intro st h; exact h
  | cons a l ih =>
    intro st h
    exact ih _ (bnStep_good e index st a h)

theorem foldl_bnStep_trigger (e : UndrivenVarEntry) (index : Nat) :
    ∀ (l : List Int) (st : String × Bool × Int),
      (∃ b ∈ l, 0 ≤ b ∧ e.m_flags.getD (b.toNat * FLAGS_PER_BIT + index) false = false) →
      bnGood (l.foldl (bnStep e index) st) := by
  intro l
  induction l with
  | nil =>
    intro st h
    obtain ⟨b, hb, _⟩ := h
    exact absurd hb (List.not_mem_nil b)
  | cons a l ih =>
    intro st h
    obtain ⟨b, hb, hpos, hflag⟩ := h
    rcases List.mem_cons.mp hb with rfl | hbl
    · exact foldl_bnStep_good e index l _ (bnStep_trigger e index st b hpos hflag)
    · exact ih _ ⟨b, hbl, hpos, hflag⟩

/-- If at least one bit below the record's width has the selected flag
false, the rendered range text contains at least one run: it is never
the empty bracket pair. -/
theorem bitNames_ne_brackets (e : UndrivenVarEntry) (index : Nat)
    (h : ∃ j, j < e.m_flags.length / FLAGS_PER_BIT ∧
        e.m_flags.getD (j * FLAGS_PER_BIT + index) false = false) :
    e.bitNames index ≠ "[]" := by
  obtain ⟨j, hj, hflag⟩ := h
  simp only [bitNames]
  have hiter : (List.range (e.m_flags.length / FLAGS_PER_BIT + 1)).map
        (fun (k : Nat) => ((e.m_flags.length / FLAGS_PER_BIT : Nat) : Int) - 1 - (k : Int))
      = ((List.range (e.m_flags.length / FLAGS_PER_BIT)).map
          fun (k : Nat) => ((e.m_flags.length / FLAGS_PER_BIT : Nat) : Int) - 1 - (k : Int))
        ++ [((e.m_flags.length / FLAGS_PER_BIT : Nat) : Int) - 1
              - ((e.m_flags.length / FLAGS_PER_BIT : Nat) : Int)] := by
    rw [List.range_succ, List.map_append]
    rfl
  have hlast : ((e.m_flags.length / FLAGS_PER_BIT : Nat) : Int) - 1
      - ((e.m_flags.length / FLAGS_PER_BIT : Nat) : Int) = -1 := by
    omega
  rw [hiter, hlast, List.foldl_append]
  simp only [List.foldl_cons, List.foldl_nil]
  have hgood : bnGood (((List.range (e.m_flags.length / FLAGS_PER_BIT)).map
      fun (k : Nat) => ((e.m_flags.length / FLAGS_PER_BIT : Nat) : Int) - 1 - (k : Int)).foldl
        (bnStep e index) ("", false, 0)) := by
    apply foldl_bnStep_trigger
    refine ⟨(j : Int), ?_, by omega, ?_⟩
    · refine List.mem_map.mpr ⟨e.m_flags.length / FLAGS_PER_BIT - 1 - j, ?_, ?_⟩
      · exact List.mem_range.mpr (by omega)
      · push_cast
        omega
    · simpa using hflag
  have hne := bnStep_final_ne e index _ hgood
  intro hcon
  have hl := congrArg String.length hcon
  rw [String.length_append, String.length_append] at hl
  have h1 : ("[" : String).length = 1 := rfl
  have h2 : ("]" : String).length = 1 := rfl
  have h3 : ("[]" : String).length = 2 := rfl
  rw [h1, h2, h3] at hl
  exact hne (string_eq_empty_of_length_zero _ (by omega))

/-- Every diagnostic emitted by `reportViolations` is one of the five
message forms; a partial ("Bits of signal ...") diagnostic is emitted
only when some bit's corresponding flag is false. -/
theorem mem_reportViolations (e : UndrivenVarEntry) (d : Diag)
    (hd : d ∈ reportViolations e) :
    d = ⟨DiagCat.UNDRIVEN, "Signal is not driven, nor used: " ++ e.varp.name⟩
  ∨ d = ⟨DiagCat.UNUSED, "Signal is not used: " ++ e.varp.name⟩
  ∨ (d = ⟨DiagCat.UNUSED,
        "Bits of signal are not used: " ++ e.varp.name ++ e.bitNames FLAG_USED⟩
      ∧ ∃ j, j < e.m_flags.length / FLAGS_PER_BIT ∧
          e.m_flags.getD (j * FLAGS_PER_BIT + FLAG_USED) false = false)
  ∨ d = ⟨DiagCat.UNDRIVEN, "Signal is not driven: " ++ e.varp.name⟩
  ∨ (d = ⟨DiagCat.UNDRIVEN,
        "Bits of signal are not driven: " ++ e.varp.name ++ e.bitNames FLAG_DRIVEN⟩
      ∧ ∃ j, j < e.m_flags.length / FLAGS_PER_BIT ∧
          e.m_flags.getD (j * FLAGS_PER_BIT + FLAG_DRIVEN) false = false) := by
  simp only [reportViolations] at hd
  split at hd
  · split at hd
    · exact absurd hd (List.not_mem_nil d)
    · split at hd
      · left
        simpa using hd
      · rcases List.mem_append.mp hd with hA | hB
        · split at hA
          · right
            left
            simpa using hA
          · split at hA
            · rename_i hcondA hcond2
              have hallU : ((List.range (e.m_flags.length / FLAGS_PER_BIT)).all
                  fun bit => e.usedFlag bit) = false := by
                simp only [Bool.not_eq_true', Bool.or_eq_false_iff] at hcond2
                exact hcond2.2
              right; right; left
              refine ⟨by simpa using hA, ?_⟩
              obtain ⟨x, hx, hpx⟩ := List.all_eq_false.mp hallU
              exact ⟨x, List.mem_range.mp hx, by
                have : e.usedFlag x = false := by
                  cases hv : e.usedFlag x
                  · rfl
                  · rw [hv] at hpx; simp at hpx
                simpa [usedFlag] using this⟩
            · exact absurd hA (List.not_mem_nil d)
        · split at hB
          · right; right; right
            left
            simpa using hB
          · split at hB
            · rename_i hcondB hcond2
              have hallD : ((List.range (e.m_flags.length / FLAGS_PER_BIT)).all
                  fun bit => e.drivenFlag bit) = false := by
                simp only [Bool.not_eq_true', Bool.or_eq_false_iff] at hcond2
                exact hcond2.2
              right; right; right; right
              refine ⟨by simpa using hB, ?_⟩
              obtain ⟨x, hx, hpx⟩ := List.all_eq_false.mp hallD
              exact ⟨x, List.mem_range.mp hx, by
                have : e.drivenFlag x = false := by
                  cases hv : e.drivenFlag x
                  · rfl
                  · rw [hv] at hpx; simp at hpx
                simpa [drivenFlag] using this⟩
            · exact absurd hB (List.not_mem_nil d)
  · exact absurd hd (List.not_mem_nil d)

end UndrivenVarEntry

/-! ## Claim theorems -/

/-- Claim C1: for a usage record of a signal that is not a compile-time
parameter and not a generate-variable, if after traversal no bit-level
or whole-signal used flag and no driven flag is set, `reportViolations`
emits exactly one diagnostic, with category UNDRIVEN and message
"Signal is not driven, nor used", and no UNUSED diagnostic for that
signal. -/
theorem C1_undriven_nor_used (e : UndrivenVarEntry)
    (hu : e.m_usedWhole = false) (hd : e.m_drivenWhole = false)
    (hf : ∀ b ∈ e.m_flags, b = false) (hw : 2 ≤ e.m_flags.length)
    (hp : e.varp.isParam = false) (hg : e.varp.isGenVar = false) :
    reportViolations e =
      [⟨DiagCat.UNDRIVEN, "Signal is not driven, nor used: " ++ e.varp.name⟩] :=
  reportViolations_fresh e hu hd hf hw hp hg

/-- Witness for C1: the freshly created record of the concrete 8-bit
signal `xVar` satisfies the hypotheses and yields the single combined
UNDRIVEN diagnostic. -/
theorem C1_undriven_nor_used_witness :
    reportViolations (mkEntry xVar) =
      [⟨DiagCat.UNDRIVEN, "Signal is not driven, nor used: " ++ xVar.name⟩] :=
  C1_undriven_nor_used (mkEntry xVar) rfl rfl (by decide) (by decide) rfl rfl

/-- Claim C2: on a usage record of a signal of width `W`, `usedBit`
(respectively `drivenBit`) with arguments `(bit, width)` sets the
used (driven) flag of every targeted index `bit+i` (for `i < width`) if
and only if that index lies inside `[0, W)`; every out-of-range index is
dropped without error, and no other flag, no whole-signal flag and no
other field of the record changes. -/
theorem C2_markBits_bounds (e : UndrivenVarEntry) (W : Nat)
    (hW : e.m_flags.length = W * FLAGS_PER_BIT) (bit width : Nat) :
    (∀ i, i < width → ((e.usedBit bit width).usedFlag (bit + i) = true ↔ bit + i < W))
  ∧ (∀ j, j < bit ∨ bit + width ≤ j → (e.usedBit bit width).usedFlag j = e.usedFlag j)
  ∧ (∀ j, (e.usedBit bit width).drivenFlag j = e.drivenFlag j)
  ∧ (e.usedBit bit width).m_usedWhole = e.m_usedWhole
  ∧ (e.usedBit bit width).m_drivenWhole = e.m_drivenWhole
  ∧ (e.usedBit bit width).m_flags.length = e.m_flags.length
  ∧ (e.usedBit bit width).varp = e.varp
  ∧ (∀ i, i < width → ((e.drivenBit bit width).drivenFlag (bit + i) = true ↔ bit + i < W))
  ∧ (∀ j, j < bit ∨ bit + width ≤ j → (e.drivenBit bit width).drivenFlag j = e.drivenFlag j)
  ∧ (∀ j, (e.drivenBit bit width).usedFlag j = e.usedFlag j)
  ∧ (e.drivenBit bit width).m_usedWhole = e.m_usedWhole
  ∧ (e.drivenBit bit width).m_drivenWhole = e.m_drivenWhole
  ∧ (e.drivenBit bit width).m_flags.length = e.m_flags.length
  ∧ (e.drivenBit bit width).varp = e.varp := by
  have hF2 : FLAGS_PER_BIT = 2 := rfl
  have hFU : FLAG_USED = 0 := rfl
  have hFD : FLAG_DRIVEN = 1 := rfl
  rw [usedBit_eq_markBitFold, drivenBit_eq_markBitFold]
  refine ⟨?_, ?_, ?_, ?_, ?_, ?_, ?_, ?_, ?_, ?_, ?_, ?_, ?_, ?_⟩
  · intro i hi
    show (markBitFold FLAG_USED e bit width).m_flags.getD
        ((bit + i) * FLAGS_PER_BIT + FLAG_USED) false = true ↔ bit + i < W
    exact markBitFold_flag_hit_iff FLAG_USED e W bit width (by rw [hFU, hF2]; omega) hW i hi
  · intro j hj
    show (markBitFold FLAG_USED e bit width).m_flags.getD
        (j * FLAGS_PER_BIT + FLAG_USED) false = e.m_flags.getD (j * FLAGS_PER_BIT + FLAG_USED) false
    refine markBitFold_getD_frame FLAG_USED e bit width _ ?_
    intro i hi
    rw [hFU, hF2]
    omega
  · intro j
    show (markBitFold FLAG_USED e bit width).m_flags.getD
        (j * FLAGS_PER_BIT + FLAG_DRIVEN) false = e.m_flags.getD (j * FLAGS_PER_BIT + FLAG_DRIVEN) false
    refine markBitFold_getD_frame FLAG_USED e bit width _ ?_
    intro i hi
    rw [hFU, hFD, hF2]
    omega
  · exact markBitFold_usedWhole _ e bit width
  · exact markBitFold_drivenWhole _ e bit width
  · exact markBitFold_length _ e bit width
  · exact markBitFold_varp _ e bit width
  · intro i hi
    show (markBitFold FLAG_DRIVEN e bit width).m_flags.getD
        ((bit + i) * FLAGS_PER_BIT + FLAG_DRIVEN) false = true ↔ bit + i < W
    exact markBitFold_flag_hit_iff FLAG_DRIVEN e W bit width (by rw [hFD, hF2]; omega) hW i hi
  · intro j hj
    show (markBitFold FLAG_DRIVEN e bit width).m_flags.getD
        (j * FLAGS_PER_BIT + FLAG_DRIVEN) false = e.m_flags.getD (j * FLAGS_PER_BIT + FLAG_DRIVEN) false
    refine markBitFold_getD_frame FLAG_DRIVEN e bit width _ ?_
    intro i hi
    rw [hFD, hF2]
    omega
  · intro j
    show (markBitFold FLAG_DRIVEN e bit width).m_flags.getD
        (j * FLAGS_PER_BIT + FLAG_USED) false = e.m_flags.getD (j * FLAGS_PER_BIT + FLAG_USED) false
    refine markBitFold_getD_frame FLAG_DRIVEN e bit width _ ?_
    intro i hi
    rw [hFU, hFD, hF2]
    omega
  · exact markBitFold_usedWhole _ e bit width
  · exact markBitFold_drivenWhole _ e bit width
  · exact markBitFold_length _ e bit width
  · exact markBitFold_varp _ e bit width

/-- Witness for C2: on the fresh 8-bit record, marking used bits 6..9
sets bits 6 and 7 and drops bits 8 and 9, and leaves the driven flags
and whole-signal flags unchanged. -/
theorem C2_markBits_bounds_witness :
    (((mkEntry xVar).usedBit 6 4).usedFlag (6 + 1) = true ↔ 6 + 1 < 8)
  ∧ (((mkEntry xVar).usedBit 6 4).usedFlag (6 + 2) = true ↔ 6 + 2 < 8)
  ∧ ((mkEntry xVar).usedBit 6 4).drivenFlag 3 = (mkEntry xVar).drivenFlag 3
  ∧ ((mkEntry xVar).usedBit 6 4).m_usedWhole = (mkEntry xVar).m_usedWhole :=
  ⟨(C2_markBits_bounds (mkEntry xVar) 8 (by decide) 6 4).1 1 (by decide),
   (C2_markBits_bounds (mkEntry xVar) 8 (by decide) 6 4).1 2 (by decide),
   (C2_markBits_bounds (mkEntry xVar) 8 (by decide) 6 4).2.2.1 3,
   (C2_markBits_bounds (mkEntry xVar) 8 (by decide) 6 4).2.2.2.1⟩

/-- Counterexample for C3: for the 8-bit ascending-numbered signal `xVar`
(lsb offset 0) driven via a constant bit-select over local bits 0..3 and
used via a whole-signal read, the pass emits the UNDRIVEN
"Bits of signal are not driven" diagnostic with range text `[4:7]`, not
`[7:4]` as the claim states. -/
theorem C3_range_counterexample :
    undrivenAll partialDriveTree =
      [⟨DiagCat.UNDRIVEN, "Bits of signal are not driven: x[4:7]"⟩]
    ∧ (⟨DiagCat.UNDRIVEN, "Bits of signal are not driven: x[7:4]"⟩ : Diag)
        ∉ undrivenAll partialDriveTree := by
  exact ⟨by decide, by decide⟩

/-- Amended C3: for an 8-bit signal declared ascending with lsb
offset 0, driven via constant bit-selects exactly for local bits 0..3
and used via a whole-signal read, the pass emits exactly one diagnostic,
category UNDRIVEN, message "Bits of signal are not driven", with range
text `[4:7]` (an ascending-numbered declaration renders
low-declared-index before high-declared-index). -/
theorem C3_range_amended :
    undrivenAll partialDriveTree =
      [⟨DiagCat.UNDRIVEN, "Bits of signal are not driven: x[4:7]"⟩] := by
  decide

/-- Claim C4: for the 10-bit descending-numbered record whose used flags are
false exactly on local bits 7, 8, 9, the range renderer produces
`[9:7]`; the ascending-numbered declaration with the same local bits
unused renders `[7:9]`.  The first conjunct pins down the flag setup of
the fixtures. -/
theorem C4_endianness :
    ((List.range 10).all fun i =>
        tenBitDesc.usedFlag i == decide (i < 7)
          && (tenBitAsc.usedFlag i == decide (i < 7))) = true
    ∧ tenBitDesc.bitNames FLAG_USED = "[9:7]"
    ∧ tenBitAsc.bitNames FLAG_USED = "[7:9]" := by
  exact ⟨by decide, by decide, by decide⟩

/-- Claim C7: a record whose whole-used and whole-driven flags are both true
at finalize reports zero diagnostics, regardless of the per-bit flags. -/
theorem C7_both_whole_silent (e : UndrivenVarEntry)
    (hu : e.m_usedWhole = true) (hd : e.m_drivenWhole = true) :
    reportViolations e = [] := by
  simp [reportViolations, hu, hd]

/-- Witness for C7: the 8-bit record with only used bits 0..2 marked at
the bit level but both whole flags set reports nothing. -/
theorem C7_both_whole_silent_witness :
    reportViolations (((mkEntry xVar).usedBit 0 3).usedWhole.drivenWhole) = [] :=
  C7_both_whole_silent _ (by decide) (by decide)

/-- Claim C9: running the pass twice on the same unmodified tree, each run
clearing the per-node annotation state at the start (so starting from a
fresh association table), yields identical diagnostic lists — the result
is independent of whatever stale annotation state each run starts from. -/
theorem C9_fresh_run_deterministic (stale1 stale2 : Table) (root : Ast) :
    undrivenAllFrom stale1 root = undrivenAllFrom stale2 root
    ∧ undrivenAllFrom stale1 root = undrivenAll root :=
  ⟨rfl, rfl⟩

/-- Claim C10: whenever `reportViolations` emits a partial diagnostic ("Bits
of signal are not used" / "Bits of signal are not driven"), the rendered
range text contains at least one run — the diagnostic with the empty
bracket pair `[]` as range text is never emitted, because the partial
branch is reached only when the corresponding all-bits promotion failed,
which guarantees a bit with a false flag. -/
theorem C10_partial_range_nonempty (e : UndrivenVarEntry) :
    (⟨DiagCat.UNUSED,
        "Bits of signal are not used: " ++ e.varp.name ++ "[]"⟩ : Diag)
      ∉ reportViolations e
    ∧ (⟨DiagCat.UNDRIVEN,
        "Bits of signal are not driven: " ++ e.varp.name ++ "[]"⟩ : Diag)
      ∉ reportViolations e := by
  constructor
  · intro hmem
    rcases mem_reportViolations e _ hmem with h | h | ⟨h, hex⟩ | h | ⟨h, hex⟩
    · exact absurd (congrArg Diag.cat h) (by simp)
    · have hmsg := congrArg Diag.msg h
      simp only at hmsg
      exact append_ne_append_of_head ("Bits of signal are not used: " ++ e.varp.name)
        "Signal is not used: " "[]" e.varp.name 'B' 'S' (by decide)
        (head_of_append_lit _ _ _ rfl) rfl hmsg
    · have hmsg := congrArg Diag.msg h
      simp only at hmsg
      have hcancel := string_append_left_cancel
        ("Bits of signal are not used: " ++ e.varp.name) _ _ hmsg
      exact absurd hcancel.symm (bitNames_ne_brackets e FLAG_USED hex)
    · exact absurd (congrArg Diag.cat h) (by simp)
    · exact absurd (congrArg Diag.cat h) (by simp)
  · intro hmem
    rcases mem_reportViolations e _ hmem with h | h | ⟨h, hex⟩ | h | ⟨h, hex⟩
    · have hmsg := congrArg Diag.msg h
      simp only at hmsg
      exact append_ne_append_of_head ("Bits of signal are not driven: " ++ e.varp.name)
        "Signal is not driven, nor used: " "[]" e.varp.name 'B' 'S' (by decide)
        (head_of_append_lit _ _ _ rfl) rfl hmsg
    · exact absurd (congrArg Diag.cat h) (by simp)
    · exact absurd (congrArg Diag.cat h) (by simp)
    · have hmsg := congrArg Diag.msg h
      simp only at hmsg
      exact append_ne_append_of_head ("Bits of signal are not driven: " ++ e.varp.name)
        "Signal is not driven: " "[]" e.varp.name 'B' 'S' (by decide)
        (head_of_append_lit _ _ _ rfl) rfl hmsg
    · have hmsg := congrArg Diag.msg h
      simp only at hmsg
      have hcancel := string_append_left_cancel
        ("Bits of signal are not driven: " ++ e.varp.name) _ _ hmsg
      exact absurd hcancel.symm (bitNames_ne_brackets e FLAG_DRIVEN hex)

/-- Witness for C10 at the concrete record of `xVar`. -/
theorem C10_partial_range_nonempty_witness :
    (⟨DiagCat.UNUSED,
        "Bits of signal are not used: " ++ xVar.name ++ "[]"⟩ : Diag)
      ∉ reportViolations (mkEntry xVar)
    ∧ (⟨DiagCat.UNDRIVEN,
        "Bits of signal are not driven: " ++ xVar.name ++ "[]"⟩ : Diag)
      ∉ reportViolations (mkEntry xVar) :=
  C10_partial_range_nonempty (mkEntry xVar)

/-! ### Traversal helper lemmas -/

theorem visitN_varRef (tbl : Table) (v : VarDecl) (lvalue : Bool) :
    visitN tbl (Ast.varRef v lvalue) =
      if lvalue then updateVar tbl v UndrivenVarEntry.drivenWhole
      else updateVar tbl v UndrivenVarEntry.usedWhole := rfl

theorem visitN_arraySel (tbl : Table) (children : List Ast) :
    visitN tbl (Ast.arraySel children) = visitL tbl children := rfl

theorem exists_vid_ensureEntry (tbl : Table) (v : VarDecl) :
    ∃ x ∈ ensureEntry tbl v, x.varp.vid = v.vid := by
  unfold ensureEntry
  by_cases hc : containsVid tbl v.vid = true
  · rw [if_pos hc]
    unfold containsVid at hc
    obtain ⟨x, hx, hbeq⟩ := List.any_eq_true.mp hc
    exact ⟨x, hx, by simpa using hbeq⟩
  · rw [if_neg hc]
    exact ⟨mkEntry v, by simp, rfl⟩

theorem reportViolations_usedWhole_cat (e : UndrivenVarEntry)
    (hu : e.m_usedWhole = true) :
    ∀ d ∈ reportViolations e, d.cat = DiagCat.UNDRIVEN := by
  intro d hd
  unfold reportViolations at hd
  by_cases hpg : (!e.varp.isParam && !e.varp.isGenVar) = true
  · rw [if_pos hpg] at hd
    simp only [hu, Bool.true_or, Bool.not_true, Bool.false_and, Bool.true_and,
      Bool.false_eq_true, if_false, List.nil_append] at hd
    split at hd
    · exact absurd hd (List.not_mem_nil d)
    · split at hd
      · rw [List.mem_singleton.mp hd]
      · split at hd
        · rw [List.mem_singleton.mp hd]
        · exact absurd hd (List.not_mem_nil d)
  · rw [if_neg hpg] at hd
    exact absurd hd (List.not_mem_nil d)

/-- Claim C8: the array-select visitor performs exactly the recursion into its
children (no per-bit marking), a read reference visited there marks the
referenced signal's record wholly used, and a record with the whole-used
flag set never yields any UNUSED diagnostic — in particular never
"Bits of signal are not used" — only UNDRIVEN-side diagnostics. -/
theorem C8_arraysel_conservative_use :
    (∀ (tbl : Table) (children : List Ast),
        visitN tbl (Ast.arraySel children) = visitL tbl children)
  ∧ (∀ (tbl : Table) (v : VarDecl),
        ∃ e ∈ visitN tbl (Ast.varRef v false), e.varp.vid = v.vid ∧ e.m_usedWhole = true)
  ∧ (∀ (tbl : Table) (v : VarDecl) (e : UndrivenVarEntry),
        e ∈ visitN tbl (Ast.varRef v false) → e.varp.vid = v.vid → e.m_usedWhole = true)
  ∧ (∀ e : UndrivenVarEntry, e.m_usedWhole = true →
      ∀ d ∈ reportViolations e, d.cat = DiagCat.UNDRIVEN) := by
  refine ⟨fun tbl children => visitN_arraySel tbl children, ?_, ?_,
    reportViolations_usedWhole_cat⟩
  · intro tbl v
    rw [visitN_varRef]
    simp only [Bool.false_eq_true, if_false]
    obtain ⟨x, hx, hvid⟩ := exists_vid_ensureEntry tbl v
    refine ⟨UndrivenVarEntry.usedWhole x, ?_, hvid, rfl⟩
    unfold updateVar
    refine List.mem_map.mpr ⟨x, hx, ?_⟩
    simp [hvid]
  · intro tbl v e he hvid
    rw [visitN_varRef] at he
    simp only [Bool.false_eq_true, if_false] at he
    unfold updateVar at he
    obtain ⟨x, hx, hfx⟩ := List.mem_map.mp he
    by_cases hb : (x.varp.vid == v.vid) = true
    · rw [if_pos hb] at hfx
      rw [← hfx]
      rfl
    · rw [if_neg hb] at hfx
      rw [← hfx] at hvid
      exact absurd (by simpa using hvid) hb

/-- Witness for C8: the concrete read of `xVar` under an array select
marks its record wholly used, and that record's only diagnostic is
UNDRIVEN. -/
theorem C8_arraysel_conservative_use_witness :
    (visitN [] (Ast.arraySel [Ast.varRef xVar false])
      = visitL [] [Ast.varRef xVar false])
  ∧ (UndrivenVarEntry.usedWhole (mkEntry xVar)).m_usedWhole = true
  ∧ (⟨DiagCat.UNDRIVEN, "Signal is not driven: " ++ xVar.name⟩ : Diag).cat
      = DiagCat.UNDRIVEN :=
  ⟨C8_arraysel_conservative_use.1 [] [Ast.varRef xVar false],
   C8_arraysel_conservative_use.2.2.1 [] xVar
     (UndrivenVarEntry.usedWhole (mkEntry xVar)) (by decide) (by decide),
   C8_arraysel_conservative_use.2.2.2
     (UndrivenVarEntry.usedWhole (mkEntry xVar)) (by decide)
     ⟨DiagCat.UNDRIVEN, "Signal is not driven: " ++ xVar.name⟩ (by decide)⟩

/-! ### Lattice-join helper lemmas -/

theorem bnStep_congr (e1 e2 : UndrivenVarEntry)
    (hf : e1.m_flags = e2.m_flags) (hv : e1.varp = e2.varp) :
    bnStep e1 = bnStep e2 := by
  funext index st bit
  unfold bnStep
  rw [hf, hv]

theorem bitNames_congr (e1 e2 : UndrivenVarEntry)
    (hf : e1.m_flags = e2.m_flags) (hv : e1.varp = e2.varp) :
    UndrivenVarEntry.bitNames e1 = UndrivenVarEntry.bitNames e2 := by
  funext index
  unfold UndrivenVarEntry.bitNames
  rw [hf, bnStep_congr e1 e2 hf hv]

theorem reportViolations_promote_driven (e : UndrivenVarEntry)
    (h : ∀ i, i < e.m_flags.length / FLAGS_PER_BIT → e.drivenFlag i = true) :
    reportViolations e = reportViolations (UndrivenVarEntry.drivenWhole e) := by
  have h1 : (UndrivenVarEntry.drivenWhole e).m_usedWhole = e.m_usedWhole := rfl
  have h2 : (UndrivenVarEntry.drivenWhole e).m_drivenWhole = true := rfl
  have h3 : (UndrivenVarEntry.drivenWhole e).m_flags = e.m_flags := rfl
  have h4 : (UndrivenVarEntry.drivenWhole e).varp = e.varp := rfl
  have h5 : ∀ b, (UndrivenVarEntry.drivenWhole e).usedFlag b = e.usedFlag b :=
    fun b => rfl
  have h6 : ∀ b, (UndrivenVarEntry.drivenWhole e).drivenFlag b = e.drivenFlag b :=
    fun b => rfl
  have hbn : UndrivenVarEntry.bitNames (UndrivenVarEntry.drivenWhole e)
      = UndrivenVarEntry.bitNames e := bitNames_congr _ e rfl rfl
  have hAD : ((List.range (e.m_flags.length / FLAGS_PER_BIT)).all
      fun bit => e.drivenFlag bit) = true := by
    rw [List.all_eq_true]
    intro i hi
    exact h i (List.mem_range.mp hi)
  by_cases hw0 : e.m_flags.length / FLAGS_PER_BIT = 0
  · have hAU : ((List.range (e.m_flags.length / FLAGS_PER_BIT)).all
        fun bit => e.usedFlag bit) = true := by
      rw [hw0]
      rfl
    simp [reportViolations, h1, h2, h3, h4, h5, h6, hbn, hAD, hAU]
  · have hAnyD : ((List.range (e.m_flags.length / FLAGS_PER_BIT)).any
        fun bit => e.drivenFlag bit) = true := by
      rw [List.any_eq_true]
      exact ⟨0, List.mem_range.mpr (Nat.pos_of_ne_zero hw0),
        h 0 (Nat.pos_of_ne_zero hw0)⟩
    simp [reportViolations, h1, h2, h3, h4, h5, h6, hbn, hAD, hAnyD]

theorem reportViolations_promote_used (e : UndrivenVarEntry)
    (h : ∀ i, i < e.m_flags.length / FLAGS_PER_BIT → e.usedFlag i = true) :
    reportViolations e = reportViolations (UndrivenVarEntry.usedWhole e) := by
  have h1 : (UndrivenVarEntry.usedWhole e).m_usedWhole = true := rfl
  have h2 : (UndrivenVarEntry.usedWhole e).m_drivenWhole = e.m_drivenWhole := rfl
  have h3 : (UndrivenVarEntry.usedWhole e).m_flags = e.m_flags := rfl
  have h4 : (UndrivenVarEntry.usedWhole e).varp = e.varp := rfl
  have h5 : ∀ b, (UndrivenVarEntry.usedWhole e).usedFlag b = e.usedFlag b :=
    fun b => rfl
  have h6 : ∀ b, (UndrivenVarEntry.usedWhole e).drivenFlag b = e.drivenFlag b :=
    fun b => rfl
  have hbn : UndrivenVarEntry.bitNames (UndrivenVarEntry.usedWhole e)
      = UndrivenVarEntry.bitNames e := bitNames_congr _ e rfl rfl
  have hAU : ((List.range (e.m_flags.length / FLAGS_PER_BIT)).all
      fun bit => e.usedFlag bit) = true := by
    rw [List.all_eq_true]
    intro i hi
    exact h i (List.mem_range.mp hi)
  by_cases hw0 : e.m_flags.length / FLAGS_PER_BIT = 0
  · have hAD : ((List.range (e.m_flags.length / FLAGS_PER_BIT)).all
        fun bit => e.drivenFlag bit) = true := by
      rw [hw0]
      rfl
    simp [reportViolations, h1, h2, h3, h4, h5, h6, hbn, hAD, hAU]
  · have hAnyU : ((List.range (e.m_flags.length / FLAGS_PER_BIT)).any
        fun bit => e.usedFlag bit) = true := by
      rw [List.any_eq_true]
      exact ⟨0, List.mem_range.mpr (Nat.pos_of_ne_zero hw0),
        h 0 (Nat.pos_of_ne_zero hw0)⟩
    simp [reportViolations, h1, h2, h3, h4, h5, h6, hbn, hAU, hAnyU]

/-- Claim C6: lattice join at finalize — if every bit's driven flag
(respectively used flag) is true, the decision table behaves exactly as
if the whole-driven (whole-used) flag had been set; in particular the
1-bit signal driven via a constant bit-select at index 0 and used via a
whole-reference yields zero diagnostics. -/
theorem C6_lattice_join :
    (∀ e : UndrivenVarEntry,
        (∀ i, i < e.m_flags.length / FLAGS_PER_BIT → e.drivenFlag i = true) →
        reportViolations e = reportViolations (UndrivenVarEntry.drivenWhole e))
  ∧ (∀ e : UndrivenVarEntry,
        (∀ i, i < e.m_flags.length / FLAGS_PER_BIT → e.usedFlag i = true) →
        reportViolations e = reportViolations (UndrivenVarEntry.usedWhole e))
  ∧ undrivenAll oneBitTree = [] :=
  ⟨reportViolations_promote_driven, reportViolations_promote_used, by decide⟩

/-- Witness for C6: the 8-bit record with all driven bits marked behaves
like the record with the whole-driven flag set. -/
theorem C6_lattice_join_witness :
    reportViolations ((mkEntry xVar).drivenBit 0 8)
      = reportViolations (UndrivenVarEntry.drivenWhole ((mkEntry xVar).drivenBit 0 8))
    ∧ reportViolations ((mkEntry xVar).usedBit 0 8)
      = reportViolations (UndrivenVarEntry.usedWhole ((mkEntry xVar).usedBit 0 8)) :=
  ⟨C6_lattice_join.1 ((mkEntry xVar).drivenBit 0 8) (by decide),
   C6_lattice_join.2.1 ((mkEntry xVar).usedBit 0 8) (by decide)⟩

/-- Counterexample for C5: the plain signal `x` declared and then referenced
only inside coverage/trace instrumentation receives the combined
UNDRIVEN "Signal is not driven, nor used" diagnostic — not a UNUSED
"Signal is not used" diagnostic as the claim states (no UNUSED
diagnostic is emitted at all). -/
theorem C5_instrumentation_counterexample :
    undrivenAll instrOnlyTree =
      [⟨DiagCat.UNDRIVEN, "Signal is not driven, nor used: x"⟩]
    ∧ (⟨DiagCat.UNUSED, "Signal is not used: x"⟩ : Diag) ∉ undrivenAll instrOnlyTree
    ∧ ((undrivenAll instrOnlyTree).all
        fun d => d.cat == DiagCat.UNDRIVEN) = true := by
  exact ⟨by decide, by decide, by decide⟩

/-- Amended C5: a non-port, non-public signal of positive width whose
only references sit inside coverage/trace instrumentation nodes gets no
used and no driven flag from them (its record stays fresh), and the pass
reports exactly one diagnostic for it: category UNDRIVEN, message
"Signal is not driven, nor used". -/
theorem C5_instrumentation_amended (v : VarDecl)
    (hp : v.isParam = false) (hg : v.isGenVar = false) (hw : 1 ≤ v.width)
    (hin : v.isInput = false) (hout : v.isOutput = false)
    (hpub : v.isSigPublic = false) (hrw : v.isSigUserRWPublic = false)
    (hrd : v.isSigUserRdPublic = false)
    (c1 c2 c3 c4 c5 : List Ast) :
    visitN [] (Ast.other [Ast.var v [], Ast.coverDecl c1, Ast.coverInc c2,
        Ast.coverToggle c3, Ast.traceDecl c4, Ast.traceInc c5]) = [mkEntry v]
    ∧ undrivenAll (Ast.other [Ast.var v [], Ast.coverDecl c1, Ast.coverInc c2,
        Ast.coverToggle c3, Ast.traceDecl c4, Ast.traceInc c5]) =
      [⟨DiagCat.UNDRIVEN, "Signal is not driven, nor used: " ++ v.name⟩] := by
  have htbl : visitN [] (Ast.other [Ast.var v [], Ast.coverDecl c1, Ast.coverInc c2,
      Ast.coverToggle c3, Ast.traceDecl c4, Ast.traceInc c5]) = [mkEntry v] := by
    show visitL [] [Ast.var v [], Ast.coverDecl c1, Ast.coverInc c2,
      Ast.coverToggle c3, Ast.traceDecl c4, Ast.traceInc c5] = [mkEntry v]
    simp only [visitL, visitN, hin, hout, hpub, hrw, hrd]
    rfl
  refine ⟨htbl, ?_⟩
  rw [undrivenAll, htbl]
  show [] ++ reportViolations (mkEntry v) = _
  rw [List.nil_append]
  exact reportViolations_mkEntry v hp hg hw

/-- Witness for C5 (amended) at the concrete signal `xVar` with a
reference hidden inside each instrumentation node kind. -/
theorem C5_instrumentation_amended_witness :
    visitN [] (Ast.other [Ast.var xVar [], Ast.coverDecl [Ast.varRef xVar false],
        Ast.coverInc [Ast.varRef xVar false], Ast.coverToggle [Ast.varRef xVar true],
        Ast.traceDecl [Ast.varRef xVar false], Ast.traceInc [Ast.varRef xVar true]])
      = [mkEntry xVar]
    ∧ undrivenAll (Ast.other [Ast.var xVar [], Ast.coverDecl [Ast.varRef xVar false],
        Ast.coverInc [Ast.varRef xVar false], Ast.coverToggle [Ast.varRef xVar true],
        Ast.traceDecl [Ast.varRef xVar false], Ast.traceInc [Ast.varRef xVar true]])
      = [⟨DiagCat.UNDRIVEN, "Signal is not driven, nor used: " ++ xVar.name⟩] :=
  C5_instrumentation_amended xVar rfl rfl (by decide) rfl rfl rfl rfl rfl
    [Ast.varRef xVar false] [Ast.varRef xVar false] [Ast.varRef xVar true]
    [Ast.varRef xVar false] [Ast.varRef xVar true]
